import Mathlib

/-!
Verification development for the Agent_Nexus conversation/tool-call core.

The definitions below are a shallow embedding of the Python sources:
`llm_tools/message_handler.py` (canonical message model),
`llm_tools/llm_handler.py` (agent loop controller and tool executor),
`tool_converter.py` (schema dialect conversion), and the message-conversion
front halves of `llm_api/openai_api.py` and `llm_api/groq_api.py`.
Python dictionaries are modelled as association lists with first-match lookup
and in-place update; Python exceptions are modelled with `Except`; machine
concurrency is modelled with an explicit completion-order parameter.
-/

namespace AgentNexus

/-- Model of a Python value as it appears in message dictionaries: strings,
integers, booleans, `None`, dictionaries and lists. -/
inductive PyVal where
  | str (s : String)
  | int (n : Int)
  | bool (b : Bool)
  | pynone
  | dict (fields : List (String × PyVal))
  | list (items : List PyVal)

/-- A Python dictionary with string keys, modelled as an association list.
The dictionaries built by this code base never repeat a key, and lookup
returns the first match. -/
abbrev PyDict := List (String × PyVal)

/-- Dictionary lookup `d.get(k)`: the first value stored under key `k`. -/
def PyDict.lookup (d : PyDict) (k : String) : Option PyVal :=
  match d with
  | [] => Option.none
  | (k2, v) :: rest => if k2 = k then some v else PyDict.lookup rest k

/-- Dictionary assignment `d[k] = v`: replaces the value in place when the key
exists, otherwise appends the new key at the end (Python insertion order). -/
def PyDict.set (d : PyDict) (k : String) (v : PyVal) : PyDict :=
  match d with
  | [] => [(k, v)]
  | (k2, v2) :: rest => if k2 = k then (k2, v) :: rest else (k2, v2) :: PyDict.set rest k v

/-- Truthiness of a Python value (`if not x`): empty strings, zero, `False`,
`None`, and empty containers are falsy. -/
def pyTruthy : PyVal → Bool
  | .str s => s ≠ ""
  | .int n => n ≠ 0
  | .bool b => b
  | .pynone => false
  | .dict d => !d.isEmpty
  | .list l => !l.isEmpty

mutual
/-- Simplified model of the Python `str()` rendering of a value. No claim
depends on the exact rendering of dictionaries or lists; it only matters that
the function is total and deterministic. -/
def pyStr : PyVal → String
  | .str s => s
  | .int n => toString n
  | .bool b => if b then "True" else "False"
  | .pynone => "None"
  | .dict fs => "\x7b" ++ pyStrFields fs ++ "\x7d"
  | .list vs => "[" ++ pyStrItems vs ++ "]"

/-- Renders dictionary fields for `pyStr`. -/
def pyStrFields : List (String × PyVal) → String
  | [] => ""
  | (k, v) :: rest => "\x27" ++ k ++ "\x27: " ++ pyStr v ++ (if rest.isEmpty then "" else ", ") ++ pyStrFields rest

/-- Renders list items for `pyStr`. -/
def pyStrItems : List PyVal → String
  | [] => ""
  | v :: rest => pyStr v ++ (if rest.isEmpty then "" else ", ") ++ pyStrItems rest
end

mutual
/-- Simplified model of `json.dumps` on a Python value. As with `pyStr`, no
claim depends on the exact rendering. -/
def jsonDumps : PyVal → String
  | .str s => "\"" ++ s ++ "\""
  | .int n => toString n
  | .bool b => if b then "true" else "false"
  | .pynone => "null"
  | .dict fs => "\x7b" ++ jsonDumpsFields fs ++ "\x7d"
  | .list vs => "[" ++ jsonDumpsItems vs ++ "]"

/-- Renders dictionary fields for `jsonDumps`. -/
def jsonDumpsFields : List (String × PyVal) → String
  | [] => ""
  | (k, v) :: rest => "\"" ++ k ++ "\": " ++ jsonDumps v ++ (if rest.isEmpty then "" else ", ") ++ jsonDumpsFields rest

/-- Renders list items for `jsonDumps`. -/
def jsonDumpsItems : List PyVal → String
  | [] => ""
  | v :: rest => jsonDumps v ++ (if rest.isEmpty then "" else ", ") ++ jsonDumpsItems rest
end

/-- A stored message of `MessageHandler.messages`. The source stores a dict
with keys `role` and `content`, plus `tool_call_id` for tool messages; the
structure fields model exactly those keys (`toolCallId = none` models the
absence of the key). -/
structure Message where
  role : String
  toolCallId : Option PyVal := Option.none
  content : List PyVal

/-- The content block `\x7b"type":"text","text":t\x7d` with a string text. -/
def textBlock (t : String) : PyVal :=
  .dict [("type", .str "text"), ("text", .str t)]

/-- The content block `\x7b"type":"text","text":v\x7d` whose text is an
arbitrary stored value (used by the tool branch of `append_message`, which
stores the supplied content value unchanged). -/
def textBlockOf (v : PyVal) : PyVal :=
  .dict [("type", .str "text"), ("text", v)]

/-- A fresh system message as built by `MessageHandler.set_system_prompt`. -/
def systemMessage (p : String) : Message :=
  { role := "system", content := [textBlock p] }

/-- Replaces the content of the first message whose role is `system` with the
single text block for `p`, leaving everything else unchanged. This models the
for-loop of `set_system_prompt` in the case where a system message exists. -/
def replaceFirstSystem (msgs : List Message) (p : String) : List Message :=
  match msgs with
  | [] => []
  | m :: rest =>
    if m.role = "system" then { m with content := [textBlock p] } :: rest
    else m :: replaceFirstSystem rest p

/-- Model of `MessageHandler.set_system_prompt`: update the first existing
system message in place, or insert a new system message at position 0. -/
def setSystemPrompt (msgs : List Message) (p : String) : List Message :=
  if msgs.any (fun m => m.role = "system") then replaceFirstSystem msgs p
  else systemMessage p :: msgs

/-- The `content_blocks` argument of `MessageHandler.append_message`: a bare
string, a single dictionary, or a list of values (the three input shapes the
source accepts). -/
inductive ContentInput where
  | str (s : String)
  | dict (d : PyDict)
  | list (items : List PyVal)

/-- Normalization of one element of a list input to `append_message`:
non-dictionaries become text blocks around their `str()`, dictionaries
without a `type` key get `type` set to `text`, dictionaries with a `type`
key are kept unchanged. -/
def normalizeListBlock (b : PyVal) : PyVal :=
  match b with
  | .dict d =>
    if (PyDict.lookup d "type").isSome then .dict d
    else .dict (PyDict.set d "type" (.str "text"))
  | v => textBlock (pyStr v)

/-- Normalization of a non-tool `append_message` input into a list of content
blocks, exactly as the source does it. -/
def normalizeContent (content : ContentInput) : List PyVal :=
  match content with
  | .str s => [textBlock s]
  | .dict d =>
    if (PyDict.lookup d "type").isSome then [.dict d]
    else [textBlock (pyStr (.dict d))]
  | .list items => items.map normalizeListBlock

/-- The `ValueError` message raised by `append_message` for malformed tool
messages. -/
def toolMsgErrorText : String :=
  "Tool messages must be dict with \x27tool_call_id\x27 and \x27content\x27 keys."

/-- Model of `MessageHandler.append_message`. For role `tool` the input must
be a dictionary with keys `tool_call_id` and `content`; otherwise a
`ValueError` is raised (modelled by `Except.error`). All other roles append a
message with the normalized content blocks. -/
def appendMessage (msgs : List Message) (role : String) (content : ContentInput) :
    Except String (List Message) :=
  if role = "tool" then
    match content with
    | .dict d =>
      match PyDict.lookup d "tool_call_id", PyDict.lookup d "content" with
      | some idv, some cv =>
        .ok (msgs ++ [{ role := "tool", toolCallId := some idv, content := [textBlockOf cv] }])
      | _, _ => .error toolMsgErrorText
    | _ => .error toolMsgErrorText
  else
    .ok (msgs ++ [{ role := role, content := normalizeContent content }])

/-- Model of `MessageHandler.append_user_text`. -/
def appendUserText (msgs : List Message) (t : String) : Except String (List Message) :=
  appendMessage msgs "user" (.str t)

/-- The image content block built by `append_image`. The file read and base64
encoding of `encode_image_to_base64` are modelled by passing the media type
and the encoded data directly. -/
def imageBlock (mediaType data : String) : PyVal :=
  .dict [("type", .str "image"),
         ("source", .dict [("type", .str "base64"), ("media_type", .str mediaType),
                           ("data", .str data)])]

/-- Model of `MessageHandler.append_image`: one image block, followed by a
text block when the caption is truthy (a `None` or empty caption adds no
text block). -/
def appendImage (msgs : List Message) (role mediaType data : String)
    (caption : Option String) : Except String (List Message) :=
  let blocks := [imageBlock mediaType data] ++
    (match caption with
     | some c => if c = "" then [] else [textBlock c]
     | Option.none => [])
  appendMessage msgs role (.list blocks)

/-- The value of a fallible handler call, with the previous state kept when
the call raised. -/
def orKeep (msgs : List Message) : Except String (List Message) → List Message
  | .ok m2 => m2
  | .error _ => msgs

/-- One operation on a `MessageHandler`, used to quantify over every
conversation built through the handler interface. -/
inductive MHOp where
  | setSystem (t : String)
  | userText (t : String)
  | image (role mediaType data : String) (caption : Option String)
  | append (role : String) (content : ContentInput)

/-- Applies one handler operation to the stored message list. An operation
that raises leaves the stored list unchanged, since `append_message` raises
before mutating `self.messages`. -/
def applyOp (msgs : List Message) (op : MHOp) : List Message :=
  match op with
  | .setSystem t => setSystemPrompt msgs t
  | .userText t => orKeep msgs (appendUserText msgs t)
  | .image r mt d c => orKeep msgs (appendImage msgs r mt d c)
  | .append r c => orKeep msgs (appendMessage msgs r c)

/-- Runs a sequence of handler operations from a starting message list. -/
def runOps (msgs : List Message) (ops : List MHOp) : List Message :=
  ops.foldl applyOp msgs

/-- Number of stored messages with the given role. -/
def countRole (msgs : List Message) (r : String) : Nat :=
  msgs.countP (fun m => m.role = r)

/-!
Agent loop controller (`llm_tools/llm_handler.py`).
-/

/-- Outcome of calling a registered tool function: a returned value or a
raised exception carrying its message. -/
inductive ToolOutcome where
  | ret (v : PyVal)
  | exc (msg : String)

/-- A registered tool callable, as a pure function from its keyword-argument
dictionary to an outcome. -/
abbrev ToolFn := PyDict → ToolOutcome

/-- The `registered_functions` dictionary: names mapped to callables. -/
abbrev Registry := List (String × ToolFn)

/-- Dictionary lookup `registered_functions.get(name)`. -/
def Registry.find (reg : Registry) (name : String) : Option ToolFn :=
  match reg with
  | [] => Option.none
  | (k, f) :: rest => if k = name then some f else Registry.find rest name

/-- Model of `LLMHandler.register_function`: dictionary assignment, so the
last registration for a name wins. -/
def registerFunction (reg : Registry) (name : String) (f : ToolFn) : Registry :=
  match reg with
  | [] => [(name, f)]
  | (k, g) :: rest => if k = name then (k, f) :: rest else (k, g) :: registerFunction rest name f

/-- The result dictionary built by `LLMHandler._execute_tool`:
`\x7b"type":"tool_result","tool_use_id":id,"data":data\x7d`. The constant
`type` key is implicit in the structure. -/
structure ResultBlock where
  tool_use_id : String
  data : PyVal

/-- Model of `LLMHandler._execute_tool`. The executor never raises: an
unknown name, a raising callable, a non-mapping return value and a mapping
return value each produce the documented `data` payload. -/
def executeTool (reg : Registry) (id name : String) (input : PyDict) : ResultBlock :=
  match Registry.find reg name with
  | Option.none =>
    { tool_use_id := id,
      data := .dict [("error", .str ("Unknown tool \x27" ++ name ++ "\x27"))] }
  | some f =>
    match f input with
    | .exc m =>
      { tool_use_id := id,
        data := .dict [("error", .str ("Error executing " ++ name ++ ": " ++ m))] }
    | .ret (.dict d) => { tool_use_id := id, data := .dict d }
    | .ret v => { tool_use_id := id, data := .dict [("result", .str (pyStr v))] }

/-- The `result_str` serialization in `_process_interaction`: `json.dumps`
for mappings, `str` otherwise. -/
def resultToStr (v : PyVal) : String :=
  match v with
  | .dict d => jsonDumps (.dict d)
  | v => pyStr v

/-- A `tool_use` content block of a canonical adapter response. -/
structure ToolUse where
  id : String
  name : String
  input : PyDict

/-- A canonical content block of an adapter response: the adapters of this
code base emit exactly text blocks and tool-use blocks. -/
inductive CBlock where
  | text (t : String)
  | toolUse (tu : ToolUse)

/-- Renders a canonical response block back into the dictionary form in which
the controller stores it inside the assistant message. -/
def CBlock.toPyVal : CBlock → PyVal
  | .text t => textBlock t
  | .toolUse tu =>
    .dict [("type", .str "tool_use"), ("id", .str tu.id), ("name", .str tu.name),
           ("input", .dict tu.input)]

/-- A canonical adapter response: content blocks plus the stop reason, where
the adapters emit `tool_use` or `stop_sequence` (the default the controller
reads when the key is absent). -/
structure Response where
  content : List CBlock
  stop_reason : String

/-- The ids of the `tool_use` blocks of a response content list, in provider
order. -/
def toolUsesOf (content : List CBlock) : List ToolUse :=
  content.filterMap (fun b => match b with | .toolUse tu => some tu | .text _ => Option.none)

/-- The texts contributing to the final answer: the `text` blocks whose text
is truthy, as filtered by the generator expression in the return statement of
`_process_interaction`. -/
def finalTexts (content : List CBlock) : List String :=
  content.filterMap (fun b => match b with
    | .text t => if t = "" then Option.none else some t
    | .toolUse _ => Option.none)

/-- The final answer string returned by the controller: the space-join of the
truthy texts of the text blocks. -/
def joinFinalText (content : List CBlock) : String :=
  String.intercalate " " (finalTexts content)

/-- The final answer as the claim words it: the space-joined concatenation of
the text of all text blocks, with no filtering of empty texts. Stated from
the claim for comparison with `joinFinalText`. -/
def specFinalText (content : List CBlock) : String :=
  String.intercalate " "
    (content.filterMap (fun b => match b with | .text t => some t | .toolUse _ => Option.none))

/-- Mutable controller state threaded through the interaction loop: the
stored conversation and the processed-tool-id set. -/
structure LoopState where
  messages : List Message
  processed : List String

/-- Set insertion `processed_tool_ids.add(id)`. -/
def addId (processed : List String) (id : String) : List String :=
  if processed.contains id then processed else processed ++ [id]

/-- Appends the assistant message carrying the full response content,
exactly as `append_message("assistant", content)` stores it. -/
def appendAssistant (msgs : List Message) (content : List CBlock) : List Message :=
  orKeep msgs (appendMessage msgs "assistant" (.list (content.map CBlock.toPyVal)))

/-- Appends one tool-result message through
`append_message("tool", \x7b"tool_call_id": id, "content": s\x7d)`. -/
def appendToolResult (msgs : List Message) (id s : String) : List Message :=
  orKeep msgs (appendMessage msgs "tool"
    (.dict [("tool_call_id", .str id), ("content", .str s)]))

/-- The stored form of one appended tool-result message. -/
def toolResultMessage (id s : String) : Message :=
  { role := "tool", toolCallId := some (.str id), content := [textBlockOf (.str s)] }

/-- Processes the filtered tool calls of one model turn: for each call in
original order, the future result is taken, the id is marked processed, and
the tool message is appended. The executions themselves are pure, so waiting
on the futures in submission order yields `executeTool` of each call. -/
def processToolCalls (reg : Registry) (st : LoopState) : List ToolUse → LoopState
  | [] => st
  | c :: rest =>
    let rb := executeTool reg c.id c.name c.input
    processToolCalls reg
      { messages := appendToolResult st.messages c.id (resultToStr rb.data),
        processed := addId st.processed c.id }
      rest

/-- Result of the interaction loop: the final answer with the final state, a
propagated `generate` exception with the state at the moment of the failing
call, or the end of the supplied response script while the loop still wanted
another turn. -/
inductive LoopResult where
  | done (answer : String) (st : LoopState)
  | genError (e : String) (st : LoopState)
  | scriptEnded (st : LoopState)

/-- The conversation carried by a loop result. -/
def finalMessages : LoopResult → List Message
  | .done _ st => st.messages
  | .genError _ st => st.messages
  | .scriptEnded st => st.messages

/-- The processed-id set carried by a loop result. -/
def finalProcessed : LoopResult → List String
  | .done _ st => st.processed
  | .genError _ st => st.processed
  | .scriptEnded st => st.processed

/-- Model of the `while True` loop of `LLMHandler._process_interaction`. The
adapter is modelled by the script of its successive `generate` results, one
consumed per call; `Except.error` models a raised exception. When the
response has tool-use blocks, the assistant message is appended, the calls
with unprocessed ids are dispatched and their results appended, and the loop
repeats; otherwise the loop returns the joined text unless the stop reason is
`tool_use`, in which case it generates again without appending. -/
def processInteraction (reg : Registry) : List (Except String Response) → LoopState → LoopResult
  | [], st => .scriptEnded st
  | .error e :: _, st => .genError e st
  | .ok resp :: rest, st =>
    let tool_uses := toolUsesOf resp.content
    if tool_uses.isEmpty then
      if resp.stop_reason ≠ "tool_use" then .done (joinFinalText resp.content) st
      else processInteraction reg rest st
    else
      let st1 : LoopState := { st with messages := appendAssistant st.messages resp.content }
      let toProcess := tool_uses.filter (fun tu => !st.processed.contains tu.id)
      processInteraction reg rest (processToolCalls reg st1 toProcess)

/-- Counts the stored tool messages answering the given call id. -/
def countToolMsgs (msgs : List Message) (id : String) : Nat :=
  msgs.countP (fun m => m.role = "tool" &&
    (match m.toolCallId with | some (.str s) => s = id | _ => false))

/-!
Completion-order model of the per-turn thread pool. Each dispatched call is
executed by `executeTool`, a pure function; `order` lists the indices of the
calls in the order in which their executions happen to complete. `runPool`
reads the completed result for one index, and `collectResults` retrieves all
results in original submission order, as the controller does by waiting on
each future in submission order.
-/

/-- The completed result available for call index `j` after the pool ran with
the given completion order. -/
def runPool (reg : Registry) (calls : List ToolUse) : List Nat → Nat → Option ResultBlock
  | [], _ => Option.none
  | i :: rest, j =>
    if j = i then (calls[j]?).map (fun c => executeTool reg c.id c.name c.input)
    else runPool reg calls rest j

/-- Retrieval of all pool results in original submission order. -/
def collectResults (reg : Registry) (calls : List ToolUse) (order : List Nat) :
    List (Option ResultBlock) :=
  (List.range calls.length).map (runPool reg calls order)

/-!
Controller object state (`LLMHandler`) and `set_model`.
-/

/-- The fields of an `LLMHandler` instance. The active adapter object is
modelled by an opaque handle. -/
structure LLMHandlerState where
  apiId : Nat
  messages : List Message
  tools : Option PyVal
  registered_functions : Registry
  processed_tool_ids : List String

/-- Model of `LLMHandler.set_model`: store the new adapter and clear the
processed-id set; nothing else is touched. -/
def set_model (h : LLMHandlerState) (api : Nat) : LLMHandlerState :=
  { h with apiId := api, processed_tool_ids := [] }

/-!
Schema dialect conversion (`tool_converter.py`,
`ToolConverter.convert_openai_to_anthropic`).
-/

/-- The `parameters` object of a Dialect A tool definition: a `properties`
dictionary and an optional `required` list (`none` models an absent key, read
with `parameters.get("required", [])`). -/
structure ToolParameters where
  properties : PyDict
  required : Option (List String)

/-- The `function` object of a Dialect A tool definition. -/
structure FunctionDetails where
  name : String
  description : String
  parameters : ToolParameters

/-- A tool definition in Dialect A form
`\x7b"type":"function","function":\x7b...\x7d\x7d`; the constant `type` key is
implicit, and `tool.get("function", tool)` reads the `function` field. -/
structure OpenAITool where
  function : FunctionDetails

/-- The `input_schema` object of the canonical/Anthropic form, with the
constant `"type":"object"` key implicit. -/
structure InputSchema where
  properties : PyDict
  required : List String

/-- A tool definition in the canonical/Anthropic form. -/
structure AnthropicTool where
  name : String
  description : String
  input_schema : InputSchema

/-- Conversion of one Dialect A tool into the canonical form, exactly as the
loop body of `convert_openai_to_anthropic` builds it. -/
def convertToolToAnthropic (tool : OpenAITool) : AnthropicTool :=
  { name := tool.function.name,
    description := tool.function.description,
    input_schema :=
      { properties := tool.function.parameters.properties,
        required := tool.function.parameters.required.getD [] } }

/-- Model of `ToolConverter.convert_openai_to_anthropic` over a list of
Dialect A tool definitions. -/
def convert_openai_to_anthropic (tools : List OpenAITool) : List AnthropicTool :=
  tools.map convertToolToAnthropic

/-!
Message conversion of the two Dialect A adapters
(`OpenAIAPI._to_openai_messages`, `GroqAPI._to_groq_messages`; the two
function bodies are line-for-line identical up to the wire shapes both build
the same way). Python runtime errors are modelled as `Except.error` with
distinct message strings, so that reachability of one particular raise site
is expressible.
-/

/-- The `ValueError` text of the missing-id branch in both adapters. -/
def missingIdText : String := "Missing tool_call_id in tool message."

/-- Model of a Python `KeyError` on the named key. -/
def keyErrorText (k : String) : String := "KeyError: " ++ k

/-- Model of a Python `TypeError` (non-string join member or subscripting a
non-dictionary). -/
def typeErrorText : String := "TypeError"

/-- Comparison of a stored value with a string literal, as in
`b["type"]=="text"`. -/
def pyEqStr (v : PyVal) (s : String) : Bool :=
  match v with
  | .str t => t = s
  | _ => false

/-- The texts gathered by the tool-branch join
`" ".join(b.get("text","") for b in msg["content"] if b["type"]=="text")`:
each block must be a dictionary with a `type` key, blocks of type `text`
contribute `b.get("text","")`, which must be a string to be joined. -/
def toolBranchTexts : List PyVal → Except String (List String)
  | [] => .ok []
  | b :: rest =>
    match b with
    | .dict d =>
      match PyDict.lookup d "type" with
      | Option.none => .error (keyErrorText "type")
      | some tv =>
        if pyEqStr tv "text" then
          match (PyDict.lookup d "text").getD (.str "") with
          | .str s =>
            match toolBranchTexts rest with
            | .ok ss => .ok (s :: ss)
            | .error e => .error e
          | _ => .error typeErrorText
        else toolBranchTexts rest
    | _ => .error typeErrorText

/-- Accumulated `text_parts` and `tool_calls` of the non-tool branch of the
Dialect A conversions. -/
structure DialectAParts where
  text_parts : List PyVal
  tool_calls : List PyVal

/-- The per-block loop of the non-tool branch: non-dictionaries are wrapped
as text blocks, `text` blocks contribute `block.get("text","")` to
`text_parts`, `tool_use` blocks are rendered into the wire tool-call shape
(reading `id`, `name` and `input`, each a `KeyError` when absent), `image`
blocks contribute a placeholder text, anything else is ignored. -/
def dialectABlocks : List PyVal → Except String DialectAParts
  | [] => .ok { text_parts := [], tool_calls := [] }
  | b :: rest =>
    let d := match b with
      | .dict d => d
      | v => [("type", .str "text"), ("text", .str (pyStr v))]
    let btype := (PyDict.lookup d "type").getD (.str "text")
    if pyEqStr btype "text" then
      match dialectABlocks rest with
      | .ok parts => .ok { parts with text_parts := (PyDict.lookup d "text").getD (.str "") :: parts.text_parts }
      | .error e => .error e
    else if pyEqStr btype "tool_use" then
      match PyDict.lookup d "id", PyDict.lookup d "name", PyDict.lookup d "input" with
      | some idv, some namev, some inputv =>
        match dialectABlocks rest with
        | .ok parts =>
          .ok { parts with tool_calls :=
            (PyVal.dict [("id", idv), ("type", .str "function"),
                         ("function", .dict [("name", namev),
                                             ("arguments", .str (jsonDumps inputv))])]) :: parts.tool_calls }
        | .error e => .error e
      | Option.none, _, _ => .error (keyErrorText "id")
      | _, Option.none, _ => .error (keyErrorText "name")
      | _, _, Option.none => .error (keyErrorText "input")
    else if pyEqStr btype "image" then
      match dialectABlocks rest with
      | .ok parts => .ok { parts with text_parts := .str "[Image data omitted]" :: parts.text_parts }
      | .error e => .error e
    else
      dialectABlocks rest

/-- The join `" ".join(text_parts)`: every member must be a string. -/
def joinStrict : List PyVal → Except String String
  | [] => .ok ""
  | v :: rest =>
    match v with
    | .str s =>
      match rest with
      | [] => .ok s
      | _ :: _ =>
        match joinStrict rest with
        | .ok t => .ok (s ++ " " ++ t)
        | .error e => .error e
    | _ => .error typeErrorText

/-- Conversion of one stored message by `OpenAIAPI._to_openai_messages`. -/
def toOpenaiMessage (msg : Message) : Except String PyVal :=
  if msg.role = "tool" then
    match msg.toolCallId with
    | some idv =>
      if pyTruthy idv then
        match toolBranchTexts msg.content with
        | .ok ss => .ok (.dict [("role", .str "tool"), ("tool_call_id", idv),
                                ("content", .str (String.intercalate " " ss))])
        | .error e => .error e
      else .error missingIdText
    | Option.none => .error missingIdText
  else
    match dialectABlocks msg.content with
    | .error e => .error e
    | .ok parts =>
      match joinStrict parts.text_parts with
      | .error e => .error e
      | .ok joined =>
        let text_content := joined.trim
        if msg.role = "assistant" && !parts.tool_calls.isEmpty then
          .ok (.dict ((if text_content ≠ "" then [("role", .str "assistant"), ("content", .str text_content)]
                       else [("role", .str "assistant")]) ++
                      [("tool_calls", .list parts.tool_calls)]))
        else
          .ok (.dict [("role", .str msg.role),
                      ("content", .str (if text_content ≠ "" then text_content else ""))])

/-- Model of `OpenAIAPI._to_openai_messages` over the stored conversation. -/
def to_openai_messages : List Message → Except String (List PyVal)
  | [] => .ok []
  | m :: rest =>
    match toOpenaiMessage m with
    | .error e => .error e
    | .ok v =>
      match to_openai_messages rest with
      | .error e => .error e
      | .ok vs => .ok (v :: vs)

/-- Conversion of one stored message by `GroqAPI._to_groq_messages`; the only
textual difference from the OpenAI variant is the explicit
`text_content if text_content else ""` in the tool branch. -/
def toGroqMessage (msg : Message) : Except String PyVal :=
  if msg.role = "tool" then
    match msg.toolCallId with
    | some idv =>
      if pyTruthy idv then
        match toolBranchTexts msg.content with
        | .ok ss =>
          let text_content := String.intercalate " " ss
          .ok (.dict [("role", .str "tool"), ("tool_call_id", idv),
                      ("content", .str (if text_content ≠ "" then text_content else ""))])
        | .error e => .error e
      else .error missingIdText
    | Option.none => .error missingIdText
  else
    match dialectABlocks msg.content with
    | .error e => .error e
    | .ok parts =>
      match joinStrict parts.text_parts with
      | .error e => .error e
      | .ok joined =>
        let text_content := joined.trim
        if msg.role = "assistant" && !parts.tool_calls.isEmpty then
          .ok (.dict ((if text_content ≠ "" then [("role", .str "assistant"), ("content", .str text_content)]
                       else [("role", .str "assistant")]) ++
                      [("tool_calls", .list parts.tool_calls)]))
        else
          .ok (.dict [("role", .str msg.role),
                      ("content", .str (if text_content ≠ "" then text_content else ""))])

/-- Model of `GroqAPI._to_groq_messages` over the stored conversation. -/
def to_groq_messages : List Message → Except String (List PyVal)
  | [] => .ok []
  | m :: rest =>
    match toGroqMessage m with
    | .error e => .error e
    | .ok v =>
      match to_groq_messages rest with
      | .error e => .error e
      | .ok vs => .ok (v :: vs)

/-!
Helper lemmas.
-/

/-- Appending a tool result goes through the tool branch of `append_message`
and stores exactly one tool message at the end. -/
theorem appendToolResult_eq (msgs : List Message) (id s : String) :
    appendToolResult msgs id s = msgs ++ [toolResultMessage id s] := rfl

/-- The assistant append stores exactly one assistant message carrying the
normalized response content. -/
theorem appendAssistant_eq (msgs : List Message) (content : List CBlock) :
    appendAssistant msgs content =
      msgs ++ [{ role := "assistant",
                 content := normalizeContent (.list (content.map CBlock.toPyVal)) }] := rfl

/-- Reading back a key just assigned into a Python dictionary. -/
theorem lookup_set (d : PyDict) (k : String) (v : PyVal) :
    PyDict.lookup (PyDict.set d k v) k = some v := by
  induction d with
  | nil => simp [PyDict.set, PyDict.lookup]
  | cons kv rest ih =>
    obtain ⟨k2, v2⟩ := kv
    by_cases h : k2 = k
    · simp [PyDict.set, PyDict.lookup, h]
    · simp [PyDict.set, PyDict.lookup, h, ih]

/-- Boolean membership agrees with list membership for the id sets. -/
theorem contains_iff (l : List String) (a : String) : l.contains a = true ↔ a ∈ l := by
  simp [List.elem_eq_mem]

/-- Membership in the processed-id set after an insertion. -/
theorem addId_mem (p : List String) (a b : String) :
    ((addId p a).contains b = true) ↔ (b ∈ p ∨ b = a) := by
  unfold addId
  by_cases hpa : p.contains a = true
  · rw [if_pos hpa, contains_iff]
    rw [contains_iff] at hpa
    constructor
    · exact Or.inl
    · rintro (h | h)
      · exact h
      · subst h; exact hpa
  · rw [if_neg hpa, contains_iff]
    simp [List.mem_append]

/-!
Claim theorems.
-/

/-- C3: the tool executor never raises; an unregistered name yields the
unknown-tool error payload, an exception raised by the callable yields the
execution-error payload, a non-mapping return value is wrapped under
`result` as its string form, and a mapping return value becomes the payload
unchanged. Totality of `executeTool` models the never-raises part. -/
theorem C3_execute_tool_cases (reg : Registry) (id name : String) (input : PyDict) :
    (Registry.find reg name = Option.none →
      (executeTool reg id name input).data =
        .dict [("error", .str ("Unknown tool \x27" ++ name ++ "\x27"))])
    ∧ (∀ f m, Registry.find reg name = some f → f input = .exc m →
      (executeTool reg id name input).data =
        .dict [("error", .str ("Error executing " ++ name ++ ": " ++ m))])
    ∧ (∀ f v, Registry.find reg name = some f → f input = .ret v → (∀ d, v ≠ .dict d) →
      (executeTool reg id name input).data = .dict [("result", .str (pyStr v))])
    ∧ (∀ f d, Registry.find reg name = some f → f input = .ret (.dict d) →
      (executeTool reg id name input).data = .dict d) := by
  refine ⟨?_, ?_, ?_, ?_⟩
  · intro h
    simp [executeTool, h]
  · intro f m hf hx
    simp [executeTool, hf, hx]
  · intro f v hf hx hnd
    cases v with
    | dict d => exact absurd rfl (hnd d)
    | str s => simp [executeTool, hf, hx]
    | int n => simp [executeTool, hf, hx]
    | bool b => simp [executeTool, hf, hx]
    | pynone => simp [executeTool, hf, hx]
    | list l => simp [executeTool, hf, hx]
  · intro f d hf hx
    simp [executeTool, hf, hx]

/-- Witness for C3 at a concrete input: registry without `multiply`. -/
theorem C3_execute_tool_cases_witness :
    (executeTool [] "call_1" "multiply" []).data =
      .dict [("error", .str "Unknown tool \x27multiply\x27")] :=
  (C3_execute_tool_cases [] "call_1" "multiply" []).1 rfl

/-- C5: when the `generate` call of the active adapter raises, the exception
propagates unmodified and the conversation is exactly the state at the moment
`generate` was invoked; nothing is appended and nothing is rolled back. -/
theorem C5_generate_error_propagates (reg : Registry) (e : String)
    (rest : List (Except String Response)) (st : LoopState) :
    processInteraction reg (Except.error e :: rest) st = .genError e st := rfl

/-- C6: converting a Dialect A tool definition to the canonical/Anthropic
form preserves the name, the description, the properties object and the
required list (hence the required-name set and each property type), and an
absent `required` key becomes the empty list. -/
theorem C6_dialectA_conversion_preserves (tools : List OpenAITool) (t : OpenAITool) :
    convert_openai_to_anthropic tools = tools.map convertToolToAnthropic
    ∧ (convertToolToAnthropic t).name = t.function.name
    ∧ (convertToolToAnthropic t).description = t.function.description
    ∧ (convertToolToAnthropic t).input_schema.properties = t.function.parameters.properties
    ∧ (∀ req, t.function.parameters.required = some req →
        (convertToolToAnthropic t).input_schema.required = req)
    ∧ (t.function.parameters.required = Option.none →
        (convertToolToAnthropic t).input_schema.required = []) := by
  refine ⟨rfl, rfl, rfl, rfl, ?_, ?_⟩
  · intro req h
    simp [convertToolToAnthropic, h]
  · intro h
    simp [convertToolToAnthropic, h]

/-- Witness for C6 at a concrete tool whose `required` key is absent. -/
theorem C6_dialectA_conversion_witness :
    (convertToolToAnthropic
      ⟨⟨"add", "Adds two numbers",
        ⟨[("a", PyVal.dict [("type", PyVal.str "number")])], Option.none⟩⟩⟩).input_schema.required
      = [] :=
  (C6_dialectA_conversion_preserves []
    ⟨⟨"add", "Adds two numbers",
      ⟨[("a", PyVal.dict [("type", PyVal.str "number")])], Option.none⟩⟩⟩).2.2.2.2.2 rfl

/-- C8: `set_model` empties the processed-id set, so every id is dispatchable
again, while the conversation, the registered functions and the tool
declarations are unchanged. -/
theorem C8_set_model_frame (h : LLMHandlerState) (api : Nat) :
    (set_model h api).processed_tool_ids = []
    ∧ (set_model h api).apiId = api
    ∧ (set_model h api).messages = h.messages
    ∧ (set_model h api).registered_functions = h.registered_functions
    ∧ (set_model h api).tools = h.tools
    ∧ (∀ id : String, (set_model h api).processed_tool_ids.contains id = false)
    ∧ (∀ calls : List ToolUse,
        calls.filter (fun tu => !(set_model h api).processed_tool_ids.contains tu.id) = calls) := by
  refine ⟨rfl, rfl, rfl, rfl, rfl, fun id => rfl, fun calls => ?_⟩
  simp [set_model]

/-- The pool result for a completed index does not depend on the completion
order: it is the pure execution of that call. -/
theorem runPool_eval (reg : Registry) (calls : List ToolUse) (order : List Nat) (j : Nat)
    (hj : j ∈ order) :
    runPool reg calls order j =
      (calls[j]?).map (fun c => executeTool reg c.id c.name c.input) := by
  induction order with
  | nil => cases hj
  | cons i rest ih =>
    by_cases h : j = i
    · simp [runPool, h]
    · rcases List.mem_cons.mp hj with h2 | h2
      · exact absurd h2 h
      · simp [runPool, h, ih h2]

/-- Indexed retrieval over the range of a list recovers the list itself. -/
theorem map_getElemOpt_range (l : List α) (f : α → β) :
    (List.range l.length).map (fun j => (l[j]?).map f) = l.map (fun a => some (f a)) := by
  induction l with
  | nil => simp
  | cons a rest ih =>
    rw [List.length_cons, List.range_succ_eq_map]
    simp only [List.map_cons, List.getElem?_cons_zero, Option.map_some, List.map_map]
    congr 1
    have : ((fun j => ((a :: rest)[j]?).map f) ∘ Nat.succ) = fun j => (rest[j]?).map f := by
      funext j
      simp
    rw [this, ih]

/-- The appended tool messages of one processed turn: one tool message per
call, in the original call order. -/
theorem processToolCalls_messages (reg : Registry) (calls : List ToolUse) (st : LoopState) :
    (processToolCalls reg st calls).messages =
      st.messages ++ calls.map (fun c =>
        toolResultMessage c.id (resultToStr (executeTool reg c.id c.name c.input).data)) := by
  induction calls generalizing st with
  | nil => simp [processToolCalls]
  | cons c rest ih =>
    rw [processToolCalls, ih]
    simp [appendToolResult_eq]

/-- C2: for every completion order of the concurrently dispatched executions
of one model turn, retrieving the futures in submission order yields the pure
execution results in the original call order, and the controller appends
exactly one tool-result message per call to the conversation in that original
order. -/
theorem C2_tool_results_in_call_order (reg : Registry) (calls : List ToolUse)
    (order : List Nat) (st : LoopState)
    (hcomplete : ∀ j, j < calls.length → j ∈ order) :
    collectResults reg calls order =
      calls.map (fun c => some (executeTool reg c.id c.name c.input))
    ∧ (processToolCalls reg st calls).messages =
      st.messages ++ calls.map (fun c =>
        toolResultMessage c.id (resultToStr (executeTool reg c.id c.name c.input).data)) := by
  constructor
  · unfold collectResults
    have hcong : ∀ j ∈ List.range calls.length,
        runPool reg calls order j =
          (calls[j]?).map (fun c => executeTool reg c.id c.name c.input) := by
      intro j hj
      exact runPool_eval reg calls order j (hcomplete j (List.mem_range.mp hj))
    rw [List.map_congr_left hcong]
    exact map_getElemOpt_range calls _
  · exact processToolCalls_messages reg calls st

/-- Witness for C2 at the scenario of the spec: three calls, completion order
`c2` first, `c3` second, `c1` last. -/
theorem C2_tool_results_witness :
    collectResults [] [⟨"c1", "f", []⟩, ⟨"c2", "g", []⟩, ⟨"c3", "h", []⟩] [1, 2, 0] =
      List.map (fun c => some (executeTool [] c.id c.name c.input))
        ([⟨"c1", "f", []⟩, ⟨"c2", "g", []⟩, ⟨"c3", "h", []⟩] : List ToolUse) :=
  (C2_tool_results_in_call_order [] [⟨"c1", "f", []⟩, ⟨"c2", "g", []⟩, ⟨"c3", "h", []⟩]
    [1, 2, 0] ⟨[], []⟩ (by decide)).1

/-- C4 as stated fails on a response containing an empty text block: the
controller filters out falsy texts before joining, so the returned answer is
not the space-join of all text-block texts. -/
theorem C4_empty_text_counterexample :
    processInteraction [] [Except.ok ⟨[CBlock.text "", CBlock.text "hi"], "stop_sequence"⟩]
        ⟨[], []⟩ =
      .done "hi" ⟨[], []⟩
    ∧ specFinalText [CBlock.text "", CBlock.text "hi"] = " hi"
    ∧ ("hi" : String) ≠ " hi" := by
  refine ⟨rfl, rfl, by decide⟩

/-- C4 amended: when the response has no tool-use blocks and its stop reason
is the stop signal, the controller returns the space-joined concatenation of
the truthy (nonempty) texts of the text blocks as the final answer and
appends nothing further for that response. -/
theorem C4_final_answer_amended (reg : Registry) (rest : List (Except String Response))
    (st : LoopState) (resp : Response)
    (hno : toolUsesOf resp.content = [])
    (hstop : resp.stop_reason = "stop_sequence") :
    processInteraction reg (Except.ok resp :: rest) st =
      .done (String.intercalate " " (finalTexts resp.content)) st := by
  rw [processInteraction]
  simp [hno, hstop, joinFinalText]

/-- Witness for C4 at a concrete stop response. -/
theorem C4_final_answer_witness :
    processInteraction [] [Except.ok ⟨[CBlock.text "ok"], "stop_sequence"⟩] ⟨[], []⟩ =
      .done (String.intercalate " " (finalTexts [CBlock.text "ok"])) ⟨[], []⟩ :=
  C4_final_answer_amended [] [] ⟨[], []⟩ ⟨[CBlock.text "ok"], "stop_sequence"⟩ rfl rfl

/-- Replacing the first system message in place keeps every role. -/
theorem replaceFirstSystem_roles (msgs : List Message) (p : String) :
    (replaceFirstSystem msgs p).map Message.role = msgs.map Message.role := by
  induction msgs with
  | nil => rfl
  | cons m rest ih =>
    by_cases h : m.role = "system"
    · simp [replaceFirstSystem, h]
    · simp [replaceFirstSystem, h, ih]

/-- Role counting only depends on the stored roles. -/
theorem countRole_eq_countP_map (msgs : List Message) (r : String) :
    countRole msgs r = (msgs.map Message.role).countP (fun s => s = r) := by
  induction msgs with
  | nil => rfl
  | cons m rest ih =>
    simp [countRole, List.countP_cons, List.map_cons] at ih ⊢
    omega

/-- In-place replacement of the system prompt does not change role counts. -/
theorem countRole_replaceFirstSystem (msgs : List Message) (p r : String) :
    countRole (replaceFirstSystem msgs p) r = countRole msgs r := by
  rw [countRole_eq_countP_map, countRole_eq_countP_map, replaceFirstSystem_roles]

/-- Equation of the tool branch of `append_message` on a dictionary input. -/
theorem appendMessage_tool_dict (msgs : List Message) (d : PyDict) :
    appendMessage msgs "tool" (.dict d) =
      (match PyDict.lookup d "tool_call_id", PyDict.lookup d "content" with
       | some idv, some cv =>
         .ok (msgs ++ [{ role := "tool", toolCallId := some idv, content := [textBlockOf cv] }])
       | _, _ => .error toolMsgErrorText) := rfl

/-- Equation of the tool branch of `append_message` on a string input. -/
theorem appendMessage_tool_str (msgs : List Message) (s : String) :
    appendMessage msgs "tool" (.str s) = .error toolMsgErrorText := rfl

/-- Equation of the tool branch of `append_message` on a list input. -/
theorem appendMessage_tool_list (msgs : List Message) (items : List PyVal) :
    appendMessage msgs "tool" (.list items) = .error toolMsgErrorText := rfl

/-- Equation of the non-tool branch of `append_message`. -/
theorem appendMessage_nontool (msgs : List Message) (role : String) (content : ContentInput)
    (hr : role ≠ "tool") :
    appendMessage msgs role content =
      .ok (msgs ++ [{ role := role, content := normalizeContent content }]) := by
  unfold appendMessage
  rw [if_neg hr]

/-- A successful `append_message` appends exactly one message whose role is
the requested role. -/
theorem appendMessage_ok (msgs : List Message) (role : String) (content : ContentInput)
    (m2 : List Message) (h : appendMessage msgs role content = .ok m2) :
    ∃ m, m2 = msgs ++ [m] ∧ m.role = role := by
  by_cases hr : role = "tool"
  · subst hr
    cases content with
    | str s =>
      rw [appendMessage_tool_str] at h
      exact Except.noConfusion h
    | list items =>
      rw [appendMessage_tool_list] at h
      exact Except.noConfusion h
    | dict d =>
      rw [appendMessage_tool_dict] at h
      cases hid : PyDict.lookup d "tool_call_id" with
      | none =>
        rw [hid] at h
        cases hc : PyDict.lookup d "content" <;> rw [hc] at h <;> exact Except.noConfusion h
      | some idv =>
        rw [hid] at h
        cases hc : PyDict.lookup d "content" with
        | none =>
          rw [hc] at h
          exact Except.noConfusion h
        | some cv =>
          rw [hc] at h
          cases h
          exact ⟨_, rfl, rfl⟩
  · rw [appendMessage_nontool msgs role content hr] at h
    cases h
    exact ⟨_, rfl, rfl⟩

/-- Sequencing lemma: running one operation then the rest. -/
theorem runOps_cons (msgs : List Message) (op : MHOp) (ops : List MHOp) :
    runOps msgs (op :: ops) = runOps (applyOp msgs op) ops := rfl

/-- Preservation of a predicate along a run of handler operations. -/
theorem runOps_preserve (P : List Message → Prop) :
    ∀ (ops : List MHOp) (msgs : List Message),
      (∀ msgs2 op, op ∈ ops → P msgs2 → P (applyOp msgs2 op)) → P msgs → P (runOps msgs ops)
  | [], _, _, h => h
  | op :: ops, msgs, hstep, h =>
    runOps_preserve P ops (applyOp msgs op)
      (fun m2 o ho => hstep m2 o (List.mem_cons_of_mem _ ho))
      (hstep msgs op (List.mem_cons_self _ _) h)

/-- Counting a role after appending one message. -/
theorem countRole_append_one (msgs : List Message) (m : Message) (r : String) :
    countRole (msgs ++ [m]) r = countRole msgs r + (if m.role = r then 1 else 0) := by
  simp [countRole, List.countP_append, List.countP_cons]

/-- Handler operations whose explicit role argument is not `system`
(`set_system_prompt` and `append_user_text` always qualify). -/
def nonSystemAppend (op : MHOp) : Bool :=
  match op with
  | .setSystem _ => true
  | .userText _ => true
  | .image r _ _ _ => r != "system"
  | .append r _ => r != "system"

/-- A step of `applyOp` by a non-system operation keeps at most one system
message. -/
theorem countRole_applyOp_system (msgs : List Message) (op : MHOp)
    (hop : nonSystemAppend op = true) (h : countRole msgs "system" ≤ 1) :
    countRole (applyOp msgs op) "system" ≤ 1 := by
  have happend : ∀ (role : String) (content : ContentInput), role ≠ "system" →
      countRole (orKeep msgs (appendMessage msgs role content)) "system" ≤ 1 := by
    intro role content hrole
    cases hres : appendMessage msgs role content with
    | error e => simpa [orKeep] using h
    | ok m2 =>
      obtain ⟨m, hm2, hrole2⟩ := appendMessage_ok msgs role content m2 hres
      subst hm2
      rw [orKeep, countRole_append_one]
      rw [hrole2, if_neg hrole]
      simpa using h
  cases op with
  | setSystem t =>
    simp only [applyOp, setSystemPrompt]
    by_cases hany : msgs.any (fun m => m.role = "system") = true
    · rw [if_pos hany, countRole_replaceFirstSystem]
      exact h
    · rw [if_neg hany]
      have hall : ∀ m ∈ msgs, ¬ m.role = "system" := by
        intro m hm hcontra
        exact hany (List.any_eq_true.mpr ⟨m, hm, by simp [hcontra]⟩)
      have hz : countRole msgs "system" = 0 := by
        rw [countRole, List.countP_eq_zero]
        intro m hm
        simp [hall m hm]
      have hone : countRole (systemMessage t :: msgs) "system" =
          countRole msgs "system" + 1 := by
        simp [countRole, List.countP_cons, systemMessage]
      rw [hone, hz]
  | userText t => exact happend "user" (.str t) (by decide)
  | image r mt d c =>
    have hr : r ≠ "system" := by simpa [nonSystemAppend] using hop
    by_cases hrt : r = "tool"
    · subst hrt
      simp [applyOp, appendImage, appendMessage, orKeep]
      exact h
    · exact happend r _ hr
  | append r c =>
    have hr : r ≠ "system" := by simpa [nonSystemAppend] using hop
    exact happend r c hr

/-- Searching for a system message only depends on the stored roles. -/
theorem any_system_eq (msgs : List Message) :
    (msgs.any (fun m => m.role = "system")) =
      ((msgs.map Message.role).any (fun s => s = "system")) := by
  induction msgs with
  | nil => rfl
  | cons m rest ih => simp [List.any_cons, ih]

/-- Replacing the first system message twice is the same as replacing it
once. -/
theorem replaceFirstSystem_idem (msgs : List Message) (p : String) :
    replaceFirstSystem (replaceFirstSystem msgs p) p = replaceFirstSystem msgs p := by
  induction msgs with
  | nil => rfl
  | cons m rest ih =>
    by_cases hm : m.role = "system"
    · simp [replaceFirstSystem, hm]
    · simp [replaceFirstSystem, hm, ih]

/-- Replacement locates the first system message and rewrites only its
content. -/
theorem replaceFirstSystem_append (pre : List Message) (m : Message) (post : List Message)
    (p : String) (hm : m.role = "system") (hpre : ∀ m2 ∈ pre, m2.role ≠ "system") :
    replaceFirstSystem (pre ++ m :: post) p =
      pre ++ { m with content := [textBlock p] } :: post := by
  induction pre with
  | nil => simp [replaceFirstSystem, hm]
  | cons a pre ih =>
    have ha : a.role ≠ "system" := hpre a (List.mem_cons_self _ _)
    rw [List.cons_append, replaceFirstSystem, if_neg ha,
        ih (fun m2 hm2 => hpre m2 (List.mem_cons_of_mem _ hm2)), List.cons_append]

/-- C7 as stated fails: the claim allows `append_image` with role `system`,
and the handler then stores a second system message. -/
theorem C7_two_system_messages_counterexample :
    ¬ countRole (runOps []
        [MHOp.setSystem "s", MHOp.image "system" "image/png" "QUJD" Option.none]) "system" ≤ 1 := by
  decide

/-- C7 amended: provided image and generic appends never use role `system`,
at most one system message ever exists; `set_system_prompt` inserts at
position 0 when no system message exists and otherwise replaces the content
of the first system message in place; and repeating `set_system_prompt` with
the same text is idempotent. -/
theorem C7_system_prompt_amended :
    (∀ ops : List MHOp, ops.all nonSystemAppend = true →
      countRole (runOps [] ops) "system" ≤ 1)
    ∧ (∀ (msgs : List Message) (p : String), (∀ m ∈ msgs, m.role ≠ "system") →
      setSystemPrompt msgs p = systemMessage p :: msgs)
    ∧ (∀ (pre : List Message) (m : Message) (post : List Message) (p : String),
      m.role = "system" → (∀ m2 ∈ pre, m2.role ≠ "system") →
      setSystemPrompt (pre ++ m :: post) p = pre ++ { m with content := [textBlock p] } :: post)
    ∧ (∀ (msgs : List Message) (p : String),
      setSystemPrompt (setSystemPrompt msgs p) p = setSystemPrompt msgs p) := by
  refine ⟨?_, ?_, ?_, ?_⟩
  · intro ops hall
    refine runOps_preserve (fun msgs => countRole msgs "system" ≤ 1) ops [] ?_ (by decide)
    intro msgs2 op hop h
    exact countRole_applyOp_system msgs2 op (List.all_eq_true.mp hall op hop) h
  · intro msgs p hall
    have hany : ¬ msgs.any (fun m => m.role = "system") = true := by
      intro hcontra
      obtain ⟨m, hm, hms⟩ := List.any_eq_true.mp hcontra
      exact hall m hm (by simpa using hms)
    unfold setSystemPrompt
    rw [if_neg hany]
  · intro pre m post p hm hpre
    have hany : (pre ++ m :: post).any (fun m2 => m2.role = "system") = true :=
      List.any_eq_true.mpr ⟨m, by simp, by simp [hm]⟩
    unfold setSystemPrompt
    rw [if_pos hany]
    exact replaceFirstSystem_append pre m post p hm hpre
  · intro msgs p
    by_cases hany : msgs.any (fun m => m.role = "system") = true
    · have h1 : setSystemPrompt msgs p = replaceFirstSystem msgs p := by
        unfold setSystemPrompt
        rw [if_pos hany]
      have hany2 : (replaceFirstSystem msgs p).any (fun m => m.role = "system") = true := by
        rw [any_system_eq, replaceFirstSystem_roles, ← any_system_eq]
        exact hany
      rw [h1]
      unfold setSystemPrompt
      rw [if_pos hany2]
      exact replaceFirstSystem_idem msgs p
    · have h1 : setSystemPrompt msgs p = systemMessage p :: msgs := by
        unfold setSystemPrompt
        rw [if_neg hany]
      have hany2 : (systemMessage p :: msgs).any (fun m => m.role = "system") = true :=
        List.any_eq_true.mpr ⟨systemMessage p, List.mem_cons_self _ _, by simp [systemMessage]⟩
      rw [h1]
      unfold setSystemPrompt
      rw [if_pos hany2]
      simp [replaceFirstSystem, systemMessage]

/-- Witness for C7 at a concrete operation sequence. -/
theorem C7_system_prompt_witness :
    countRole (runOps [] [MHOp.setSystem "a", MHOp.userText "hello"]) "system" ≤ 1 :=
  C7_system_prompt_amended.1 [MHOp.setSystem "a", MHOp.userText "hello"] rfl

/-- A stored content block is a dictionary carrying a `type` key. -/
def blockHasType (b : PyVal) : Bool :=
  match b with
  | .dict d => (PyDict.lookup d "type").isSome
  | _ => false

/-- Well-formedness of one stored message: every content element is a
dictionary with a `type` key, and tool messages carry a `tool_call_id`. -/
def messageWF (m : Message) : Bool :=
  m.content.all blockHasType && (m.role != "tool" || m.toolCallId.isSome)

/-- Text blocks carry a `type` key. -/
theorem blockHasType_textBlock (t : String) : blockHasType (textBlock t) = true := rfl

/-- Tool-content text blocks carry a `type` key. -/
theorem blockHasType_textBlockOf (v : PyVal) : blockHasType (textBlockOf v) = true := rfl

/-- Every normalized list element carries a `type` key. -/
theorem blockHasType_normalizeListBlock (b : PyVal) :
    blockHasType (normalizeListBlock b) = true := by
  cases b with
  | dict d =>
    by_cases h : (PyDict.lookup d "type").isSome = true
    · simp [normalizeListBlock, h, blockHasType]
    · simp only [normalizeListBlock]
      rw [if_neg h]
      simp [blockHasType, lookup_set]
  | str s => rfl
  | int n => rfl
  | bool b => rfl
  | pynone => rfl
  | list l => rfl

/-- Every block produced by content normalization carries a `type` key. -/
theorem normalizeContent_WF (content : ContentInput) :
    (normalizeContent content).all blockHasType = true := by
  cases content with
  | str s => rfl
  | dict d =>
    by_cases h : (PyDict.lookup d "type").isSome = true
    · simp [normalizeContent, h, blockHasType]
    · simp only [normalizeContent]
      rw [if_neg h]
      rfl
  | list items =>
    rw [normalizeContent, List.all_eq_true]
    intro b hb
    obtain ⟨b0, _, hb0⟩ := List.mem_map.mp hb
    rw [← hb0]
    exact blockHasType_normalizeListBlock b0

/-- In-place system prompt replacement keeps every message well formed. -/
theorem messageWF_replaceFirstSystem (msgs : List Message) (p : String)
    (h : msgs.all messageWF = true) : (replaceFirstSystem msgs p).all messageWF = true := by
  induction msgs with
  | nil => rfl
  | cons m rest ih =>
    rw [List.all_cons, Bool.and_eq_true] at h
    by_cases hm : m.role = "system"
    · rw [replaceFirstSystem, if_pos hm, List.all_cons, Bool.and_eq_true]
      refine ⟨?_, h.2⟩
      have h2 := h.1
      rw [messageWF, Bool.and_eq_true] at h2 ⊢
      exact ⟨rfl, h2.2⟩
    · rw [replaceFirstSystem, if_neg hm, List.all_cons, Bool.and_eq_true]
      exact ⟨h.1, ih h.2⟩

/-- A successful `append_message` keeps every message well formed. -/
theorem messageWF_appendMessage (msgs : List Message) (role : String) (content : ContentInput)
    (m2 : List Message) (h2 : appendMessage msgs role content = .ok m2)
    (h : msgs.all messageWF = true) : m2.all messageWF = true := by
  by_cases hr : role = "tool"
  · subst hr
    cases content with
    | str s => rw [appendMessage_tool_str] at h2; exact Except.noConfusion h2
    | list items => rw [appendMessage_tool_list] at h2; exact Except.noConfusion h2
    | dict d =>
      rw [appendMessage_tool_dict] at h2
      cases hid : PyDict.lookup d "tool_call_id" with
      | none =>
        rw [hid] at h2
        cases hc : PyDict.lookup d "content" <;> rw [hc] at h2 <;> exact Except.noConfusion h2
      | some idv =>
        rw [hid] at h2
        cases hc : PyDict.lookup d "content" with
        | none => rw [hc] at h2; exact Except.noConfusion h2
        | some cv =>
          rw [hc] at h2
          cases h2
          rw [List.all_append, Bool.and_eq_true]
          exact ⟨h, rfl⟩
  · rw [appendMessage_nontool msgs role content hr] at h2
    cases h2
    rw [List.all_append, Bool.and_eq_true]
    refine ⟨h, ?_⟩
    rw [List.all_cons, Bool.and_eq_true]
    refine ⟨?_, rfl⟩
    rw [messageWF, Bool.and_eq_true]
    constructor
    · exact normalizeContent_WF content
    · simp [hr]

/-- The kept-on-error variant of append preserves well-formedness. -/
theorem messageWF_orKeep_append (msgs : List Message) (role : String) (content : ContentInput)
    (h : msgs.all messageWF = true) :
    (orKeep msgs (appendMessage msgs role content)).all messageWF = true := by
  cases hres : appendMessage msgs role content with
  | error e => simpa [orKeep] using h
  | ok m2 =>
    rw [orKeep]
    exact messageWF_appendMessage msgs role content m2 hres h

/-- Every handler operation preserves well-formedness of the stored
conversation. -/
theorem messageWF_applyOp (msgs : List Message) (op : MHOp)
    (h : msgs.all messageWF = true) : (applyOp msgs op).all messageWF = true := by
  cases op with
  | setSystem t =>
    rw [applyOp]
    unfold setSystemPrompt
    by_cases hany : msgs.any (fun m => m.role = "system") = true
    · rw [if_pos hany]
      exact messageWF_replaceFirstSystem msgs t h
    · rw [if_neg hany, List.all_cons, Bool.and_eq_true]
      exact ⟨rfl, h⟩
  | userText t => exact messageWF_orKeep_append msgs "user" (.str t) h
  | image r mt d c => exact messageWF_orKeep_append msgs r _ h
  | append r c => exact messageWF_orKeep_append msgs r c h

/-- C9: after every sequence of handler operations, every stored message has
a role and a content list in which every element is a dictionary carrying a
`type` key, and tool messages carry a `tool_call_id`; moreover list entries
supplied without a type are normalized to text blocks, and non-dictionary
entries become text blocks of their string form. The message structure
carries the role and content fields by construction. -/
theorem C9_message_wellformedness :
    (∀ ops : List MHOp, (runOps [] ops).all messageWF = true)
    ∧ (∀ d : PyDict, PyDict.lookup d "type" = Option.none →
        normalizeListBlock (.dict d) = .dict (PyDict.set d "type" (.str "text"))
        ∧ PyDict.lookup (PyDict.set d "type" (.str "text")) "type" = some (.str "text"))
    ∧ (∀ v : PyVal, (∀ d, v ≠ .dict d) → normalizeListBlock v = textBlock (pyStr v)) := by
  refine ⟨?_, ?_, ?_⟩
  · intro ops
    exact runOps_preserve (fun msgs => msgs.all messageWF = true) ops []
      (fun msgs2 op _ h => messageWF_applyOp msgs2 op h) rfl
  · intro d hd
    constructor
    · rw [normalizeListBlock, hd]
      rfl
    · exact lookup_set d "type" (.str "text")
  · intro v hv
    cases v with
    | dict d => exact absurd rfl (hv d)
    | str s => rfl
    | int n => rfl
    | bool b => rfl
    | pynone => rfl
    | list l => rfl

/-- Witness for C9 at a concrete typeless dictionary entry. -/
theorem C9_message_wellformedness_witness :
    PyDict.lookup (PyDict.set [("text", PyVal.str "hi")] "type" (PyVal.str "text")) "type" =
      some (PyVal.str "text") :=
  (C9_message_wellformedness.2.1 [("text", PyVal.str "hi")] rfl).2

/-- The assistant append does not change any tool-reply count. -/
theorem countToolMsgs_appendAssistant (msgs : List Message) (content : List CBlock)
    (id : String) :
    countToolMsgs (appendAssistant msgs content) id = countToolMsgs msgs id := by
  rw [appendAssistant_eq]
  simp [countToolMsgs, List.countP_append, List.countP_cons]

/-- Appending one tool result raises exactly the count of its own id. -/
theorem countToolMsgs_appendToolResult (msgs : List Message) (idc s id : String) :
    countToolMsgs (appendToolResult msgs idc s) id =
      countToolMsgs msgs id + (if idc = id then 1 else 0) := by
  rw [appendToolResult_eq]
  by_cases h : idc = id
  · simp [countToolMsgs, List.countP_append, List.countP_cons, toolResultMessage, h]
  · simp [countToolMsgs, List.countP_append, List.countP_cons, toolResultMessage, h]

/-- Invariant preservation through one turn of concurrent tool dispatch:
counts stay at most one and every answered id is marked processed, provided
the dispatched calls carry pairwise distinct unprocessed ids. -/
theorem processToolCalls_inv (reg : Registry) :
    ∀ (calls : List ToolUse) (st : LoopState),
      (∀ id, countToolMsgs st.messages id ≤ 1) →
      (∀ id, 1 ≤ countToolMsgs st.messages id → st.processed.contains id = true) →
      (calls.map ToolUse.id).Nodup →
      (∀ c ∈ calls, ¬ st.processed.contains c.id = true) →
      (∀ id, countToolMsgs (processToolCalls reg st calls).messages id ≤ 1)
      ∧ (∀ id, 1 ≤ countToolMsgs (processToolCalls reg st calls).messages id →
          (processToolCalls reg st calls).processed.contains id = true) := by
  intro calls
  induction calls with
  | nil =>
    intro st h1 h2 _ _
    exact ⟨h1, h2⟩
  | cons c rest ih =>
    intro st h1 h2 hnd hfresh
    have hzero : countToolMsgs st.messages c.id = 0 := by
      by_contra hne
      have hge : 1 ≤ countToolMsgs st.messages c.id := Nat.one_le_iff_ne_zero.mpr hne
      exact hfresh c (List.mem_cons_self _ _) (h2 c.id hge)
    rw [processToolCalls]
    apply ih
    · intro id
      rw [countToolMsgs_appendToolResult]
      by_cases h : c.id = id
      · subst h
        rw [if_pos rfl, hzero]
      · rw [if_neg h, Nat.add_zero]
        exact h1 id
    · intro id hge
      rw [countToolMsgs_appendToolResult] at hge
      by_cases h : c.id = id
      · subst h
        exact (addId_mem st.processed c.id c.id).mpr (Or.inr rfl)
      · rw [if_neg h, Nat.add_zero] at hge
        have := h2 id hge
        exact (addId_mem st.processed c.id id).mpr
          (Or.inl ((contains_iff st.processed id).mp this))
    · exact (List.nodup_cons.mp hnd).2
    · intro c2 hc2 hcontra
      have hne : c2.id ≠ c.id := by
        intro heq
        exact (List.nodup_cons.mp hnd).1 (heq ▸ List.mem_map_of_mem ToolUse.id hc2)
      rcases (addId_mem st.processed c.id c2.id).mp hcontra with hmem | heq
      · exact hfresh c2 (List.mem_cons_of_mem _ hc2) ((contains_iff st.processed c2.id).mpr hmem)
      · exact hne heq

/-- The processed filter only keeps calls with unprocessed ids and distinct
ids stay distinct through it. -/
theorem toProcess_facts (tool_uses : List ToolUse) (processed : List String)
    (hnd : (tool_uses.map ToolUse.id).Nodup) :
    ((tool_uses.filter (fun tu => !processed.contains tu.id)).map ToolUse.id).Nodup
    ∧ (∀ c ∈ tool_uses.filter (fun tu => !processed.contains tu.id),
        ¬ processed.contains c.id = true) := by
  constructor
  · exact hnd.sublist (List.Sublist.map ToolUse.id (List.filter_sublist tool_uses))
  · intro c hc hcontra
    have := (List.mem_filter.mp hc).2
    rw [hcontra] at this
    cases this

/-- Invariant preservation through the whole interaction loop. -/
theorem processInteraction_inv (reg : Registry) :
    ∀ (script : List (Except String Response)) (st : LoopState),
      (∀ resp, Except.ok resp ∈ script → ((toolUsesOf resp.content).map ToolUse.id).Nodup) →
      (∀ id, countToolMsgs st.messages id ≤ 1) →
      (∀ id, 1 ≤ countToolMsgs st.messages id → st.processed.contains id = true) →
      (∀ id, countToolMsgs (finalMessages (processInteraction reg script st)) id ≤ 1) := by
  intro script
  induction script with
  | nil =>
    intro st _ h1 _ id
    exact h1 id
  | cons r rest ih =>
    intro st hscript h1 h2 id
    cases r with
    | error e => exact h1 id
    | ok resp =>
      rw [processInteraction]
      by_cases hempty : (toolUsesOf resp.content).isEmpty = true
      · rw [if_pos hempty]
        by_cases hstop : resp.stop_reason ≠ "tool_use"
        · rw [if_pos hstop]
          exact h1 id
        · rw [if_neg hstop]
          exact ih st (fun resp2 h => hscript resp2 (List.mem_cons_of_mem _ h)) h1 h2 id
      · rw [if_neg hempty]
        have hnd : ((toolUsesOf resp.content).map ToolUse.id).Nodup :=
          hscript resp (List.mem_cons_self _ _)
        obtain ⟨hnd2, hfresh⟩ := toProcess_facts (toolUsesOf resp.content) st.processed hnd
        have h1a : ∀ id2, countToolMsgs (appendAssistant st.messages resp.content) id2 ≤ 1 := by
          intro id2
          rw [countToolMsgs_appendAssistant]
          exact h1 id2
        have h2a : ∀ id2, 1 ≤ countToolMsgs (appendAssistant st.messages resp.content) id2 →
            st.processed.contains id2 = true := by
          intro id2 h
          rw [countToolMsgs_appendAssistant] at h
          exact h2 id2 h
        obtain ⟨h1b, h2b⟩ := processToolCalls_inv reg
          ((toolUsesOf resp.content).filter (fun tu => !st.processed.contains tu.id))
          { st with messages := appendAssistant st.messages resp.content }
          h1a h2a hnd2 hfresh
        exact ih _ (fun resp2 h => hscript resp2 (List.mem_cons_of_mem _ h)) h1b h2b id

/-- C1 as stated fails when one response carries two tool-use blocks with the
same id: the dedup filter is computed once per response, so both calls are
dispatched and two tool messages carrying the id are appended. -/
theorem C1_duplicate_ids_counterexample :
    countToolMsgs
      (finalMessages (processInteraction []
        [Except.ok ⟨[CBlock.toolUse ⟨"x", "f", []⟩, CBlock.toolUse ⟨"x", "f", []⟩], "tool_use"⟩,
         Except.ok ⟨[CBlock.text "done"], "stop_sequence"⟩]
        ⟨[], []⟩)) "x" = 2 := by
  decide

/-- C1 amended: provided the tool-use ids inside each single response are
pairwise distinct, each tool-call id is answered by at most one appended tool
message across one adapter session; ids answered in earlier turns are
filtered out even when a later response resends them. The session is any
state whose conversation answers no id twice and whose answered ids are all
marked processed, in particular the initial state. -/
theorem C1_at_most_one_tool_reply_amended (reg : Registry)
    (script : List (Except String Response)) (st : LoopState)
    (hscript : ∀ resp, Except.ok resp ∈ script →
      ((toolUsesOf resp.content).map ToolUse.id).Nodup)
    (h1 : ∀ id, countToolMsgs st.messages id ≤ 1)
    (h2 : ∀ id, 1 ≤ countToolMsgs st.messages id → st.processed.contains id = true)
    (id : String) :
    countToolMsgs (finalMessages (processInteraction reg script st)) id ≤ 1 :=
  processInteraction_inv reg script st hscript h1 h2 id

/-- A supplied tool-call-id value that is a non-empty string. -/
def goodIdVal : PyVal → Bool
  | .str s => s ≠ ""
  | _ => false

/-- A stored message that is either not a tool message, or carries a
non-empty string `tool_call_id`. -/
def goodToolMsg (m : Message) : Bool :=
  m.role != "tool" ||
    (match m.toolCallId with
     | some v => goodIdVal v
     | Option.none => false)

/-- A handler operation whose tool append, if any, supplies a non-empty
string `tool_call_id`. -/
def goodToolAppend (op : MHOp) : Bool :=
  match op with
  | .append r (.dict d) =>
    if r = "tool" then
      match PyDict.lookup d "tool_call_id" with
      | some v => goodIdVal v
      | Option.none => true
    else true
  | _ => true

/-- A good tool message carries a non-empty string id. -/
theorem goodToolMsg_tool (m : Message) (hm : goodToolMsg m = true) (hr : m.role = "tool") :
    ∃ s, m.toolCallId = some (.str s) ∧ s ≠ "" := by
  rw [goodToolMsg] at hm
  have h1 : (m.role != "tool") = false := by simp [hr]
  rw [h1, Bool.false_or] at hm
  cases hv : m.toolCallId with
  | none =>
    rw [hv] at hm
    cases hm
  | some v =>
    rw [hv] at hm
    cases v with
    | str s =>
      refine ⟨s, rfl, ?_⟩
      simpa [goodIdVal] using hm
    | int n => simp [goodIdVal] at hm
    | bool b => simp [goodIdVal] at hm
    | pynone => simp [goodIdVal] at hm
    | dict d => simp [goodIdVal] at hm
    | list l => simp [goodIdVal] at hm

/-- System prompt replacement keeps the tool-id goodness of each message. -/
theorem goodToolMsg_replaceFirstSystem (msgs : List Message) (p : String)
    (h : msgs.all goodToolMsg = true) :
    (replaceFirstSystem msgs p).all goodToolMsg = true := by
  induction msgs with
  | nil => rfl
  | cons m rest ih =>
    rw [List.all_cons, Bool.and_eq_true] at h
    by_cases hm : m.role = "system"
    · rw [replaceFirstSystem, if_pos hm, List.all_cons, Bool.and_eq_true]
      exact ⟨h.1, h.2⟩
    · rw [replaceFirstSystem, if_neg hm, List.all_cons, Bool.and_eq_true]
      exact ⟨h.1, ih h.2⟩

/-- Every handler operation with good tool appends preserves tool-id
goodness of the stored conversation. -/
theorem goodToolMsg_applyOp (msgs : List Message) (op : MHOp)
    (hop : goodToolAppend op = true) (h : msgs.all goodToolMsg = true) :
    (applyOp msgs op).all goodToolMsg = true := by
  have hnontool : ∀ (role : String) (content : ContentInput), role ≠ "tool" →
      (orKeep msgs (appendMessage msgs role content)).all goodToolMsg = true := by
    intro role content hr
    rw [appendMessage_nontool msgs role content hr, orKeep, List.all_append, Bool.and_eq_true]
    refine ⟨h, ?_⟩
    simp [List.all_cons, goodToolMsg, hr]
  cases op with
  | setSystem t =>
    rw [applyOp]
    unfold setSystemPrompt
    by_cases hany : msgs.any (fun m => m.role = "system") = true
    · rw [if_pos hany]
      exact goodToolMsg_replaceFirstSystem msgs t h
    · rw [if_neg hany, List.all_cons, Bool.and_eq_true]
      exact ⟨rfl, h⟩
  | userText t => exact hnontool "user" (.str t) (by decide)
  | image r mt d c =>
    by_cases hrt : r = "tool"
    · subst hrt
      simp only [applyOp, appendImage, appendMessage_tool_list, orKeep]
      exact h
    · simp only [applyOp, appendImage]
      exact hnontool r _ hrt
  | append r c =>
    by_cases hrt : r = "tool"
    · subst hrt
      cases c with
      | str s =>
        simp only [applyOp, appendMessage_tool_str, orKeep]
        exact h
      | list items =>
        simp only [applyOp, appendMessage_tool_list, orKeep]
        exact h
      | dict d =>
        rw [applyOp, appendMessage_tool_dict]
        cases hid : PyDict.lookup d "tool_call_id" with
        | none => exact h
        | some v =>
          have hgv : goodIdVal v = true := by
            simpa [goodToolAppend, hid] using hop
          cases hc : PyDict.lookup d "content" with
          | none => exact h
          | some cv =>
            show (msgs ++
              [({ role := "tool", toolCallId := some v,
                  content := [textBlockOf cv] } : Message)]).all
                goodToolMsg = true
            rw [List.all_append, Bool.and_eq_true]
            refine ⟨h, ?_⟩
            simp [List.all_cons, goodToolMsg, hgv]
    · exact hnontool r c hrt

/-- Goodness of the stored conversation after any run of good operations. -/
theorem goodToolMsg_runOps (ops : List MHOp) (hall : ops.all goodToolAppend = true) :
    (runOps [] ops).all goodToolMsg = true :=
  runOps_preserve (fun msgs => msgs.all goodToolMsg = true) ops []
    (fun msgs2 op hop h2 => goodToolMsg_applyOp msgs2 op (List.all_eq_true.mp hall op hop) h2)
    rfl

/-- Equation of the tool-branch text extraction on a dictionary block. -/
theorem toolBranchTexts_cons_dict (d : PyDict) (rest : List PyVal) :
    toolBranchTexts (.dict d :: rest) =
      (match PyDict.lookup d "type" with
       | Option.none => .error (keyErrorText "type")
       | some tv =>
         if pyEqStr tv "text" then
           match (PyDict.lookup d "text").getD (.str "") with
           | .str s =>
             (match toolBranchTexts rest with
              | .ok ss => .ok (s :: ss)
              | .error e => .error e)
           | _ => .error typeErrorText
         else toolBranchTexts rest) := rfl

/-- Equation of the tool-branch text extraction on a non-dictionary block. -/
theorem toolBranchTexts_cons_nondict (b : PyVal) (rest : List PyVal)
    (hb : ∀ d, b ≠ .dict d) :
    toolBranchTexts (b :: rest) = .error typeErrorText := by
  cases b with
  | dict d => exact absurd rfl (hb d)
  | str s => rfl
  | int n => rfl
  | bool bb => rfl
  | pynone => rfl
  | list l => rfl

/-- The tool-branch text extraction never raises the missing-id error. -/
theorem toolBranchTexts_ne_missing (blocks : List PyVal) :
    toolBranchTexts blocks ≠ Except.error missingIdText := by
  induction blocks with
  | nil =>
    intro h
    exact Except.noConfusion h
  | cons b rest ih =>
    intro h
    by_cases hb : ∃ d, b = .dict d
    · obtain ⟨d, rfl⟩ := hb
      rw [toolBranchTexts_cons_dict] at h
      cases hlt : PyDict.lookup d "type" with
      | none =>
        rw [hlt] at h
        injection h with h2
        exact absurd h2 (by decide)
      | some tv =>
        rw [hlt] at h
        have h3 : (if pyEqStr tv "text" then
            (match (PyDict.lookup d "text").getD (.str "") with
             | .str s =>
               (match toolBranchTexts rest with
                | .ok ss => (Except.ok (s :: ss) : Except String (List String))
                | .error e => .error e)
             | _ => .error typeErrorText)
          else toolBranchTexts rest) = Except.error missingIdText := h
        by_cases htx : pyEqStr tv "text" = true
        · rw [if_pos htx] at h3
          cases hgt : (PyDict.lookup d "text").getD (.str "") with
          | str s =>
            rw [hgt] at h3
            cases hrec : toolBranchTexts rest with
            | ok ss =>
              rw [hrec] at h3
              exact Except.noConfusion h3
            | error e =>
              rw [hrec] at h3
              injection h3 with h2
              subst h2
              exact ih hrec
          | int n =>
            rw [hgt] at h3
            injection h3 with h2
            exact absurd h2 (by decide)
          | bool bb =>
            rw [hgt] at h3
            injection h3 with h2
            exact absurd h2 (by decide)
          | pynone =>
            rw [hgt] at h3
            injection h3 with h2
            exact absurd h2 (by decide)
          | dict d2 =>
            rw [hgt] at h3
            injection h3 with h2
            exact absurd h2 (by decide)
          | list l =>
            rw [hgt] at h3
            injection h3 with h2
            exact absurd h2 (by decide)
        · rw [if_neg htx] at h3
          exact ih h3
    · rw [toolBranchTexts_cons_nondict b rest (fun d hq => hb ⟨d, hq⟩)] at h
      injection h with h2
      exact absurd h2 (by decide)

/-- Equation of the non-tool block loop on a dictionary block. -/
theorem dialectABlocks_cons_dict (d : PyDict) (rest : List PyVal) :
    dialectABlocks (.dict d :: rest) =
      (if pyEqStr ((PyDict.lookup d "type").getD (.str "text")) "text" then
         match dialectABlocks rest with
         | .ok parts =>
           .ok { parts with
                 text_parts := (PyDict.lookup d "text").getD (.str "") :: parts.text_parts }
         | .error e => .error e
       else if pyEqStr ((PyDict.lookup d "type").getD (.str "text")) "tool_use" then
         match PyDict.lookup d "id", PyDict.lookup d "name", PyDict.lookup d "input" with
         | some idv, some namev, some inputv =>
           (match dialectABlocks rest with
            | .ok parts =>
              .ok { parts with tool_calls :=
                (PyVal.dict [("id", idv), ("type", .str "function"),
                             ("function", .dict [("name", namev),
                                                 ("arguments", .str (jsonDumps inputv))])]) ::
                  parts.tool_calls }
            | .error e => .error e)
         | Option.none, _, _ => .error (keyErrorText "id")
         | _, Option.none, _ => .error (keyErrorText "name")
         | _, _, Option.none => .error (keyErrorText "input")
       else if pyEqStr ((PyDict.lookup d "type").getD (.str "text")) "image" then
         match dialectABlocks rest with
         | .ok parts =>
           .ok { parts with text_parts := PyVal.str "[Image data omitted]" :: parts.text_parts }
         | .error e => .error e
       else dialectABlocks rest) := rfl

/-- Equation of the non-tool block loop on a non-dictionary block. -/
theorem dialectABlocks_cons_nondict (b : PyVal) (rest : List PyVal)
    (hb : ∀ d, b ≠ .dict d) :
    dialectABlocks (b :: rest) =
      (match dialectABlocks rest with
       | .ok parts => .ok { parts with text_parts := PyVal.str (pyStr b) :: parts.text_parts }
       | .error e => .error e) := by
  cases b with
  | dict d => exact absurd rfl (hb d)
  | str s => rfl
  | int n => rfl
  | bool bb => rfl
  | pynone => rfl
  | list l => rfl

/-- The non-tool block loop never raises the missing-id error. -/
theorem dialectABlocks_ne_missing (blocks : List PyVal) :
    dialectABlocks blocks ≠ Except.error missingIdText := by
  induction blocks with
  | nil =>
    intro h
    exact Except.noConfusion h
  | cons b rest ih =>
    intro h
    by_cases hb : ∃ d, b = .dict d
    · obtain ⟨d, rfl⟩ := hb
      rw [dialectABlocks_cons_dict] at h
      by_cases h1 : pyEqStr ((PyDict.lookup d "type").getD (.str "text")) "text" = true
      · rw [if_pos h1] at h
        cases hrec : dialectABlocks rest with
        | ok parts =>
          rw [hrec] at h
          exact Except.noConfusion h
        | error e =>
          rw [hrec] at h
          injection h with h2
          subst h2
          exact ih hrec
      · rw [if_neg h1] at h
        by_cases h2p : pyEqStr ((PyDict.lookup d "type").getD (.str "text")) "tool_use" = true
        · rw [if_pos h2p] at h
          cases hid : PyDict.lookup d "id" with
          | none =>
            rw [hid] at h
            cases hnm : PyDict.lookup d "name" <;> rw [hnm] at h <;>
              cases hin : PyDict.lookup d "input" <;> rw [hin] at h <;>
              (injection h with h2; exact absurd h2 (by decide))
          | some idv =>
            rw [hid] at h
            cases hnm : PyDict.lookup d "name" with
            | none =>
              rw [hnm] at h
              cases hin : PyDict.lookup d "input" <;> rw [hin] at h <;>
                (injection h with h2; exact absurd h2 (by decide))
            | some namev =>
              rw [hnm] at h
              cases hin : PyDict.lookup d "input" with
              | none =>
                rw [hin] at h
                injection h with h2
                exact absurd h2 (by decide)
              | some inputv =>
                rw [hin] at h
                cases hrec : dialectABlocks rest with
                | ok parts =>
                  rw [hrec] at h
                  exact Except.noConfusion h
                | error e =>
                  rw [hrec] at h
                  injection h with h2
                  subst h2
                  exact ih hrec
        · rw [if_neg h2p] at h
          by_cases h3 : pyEqStr ((PyDict.lookup d "type").getD (.str "text")) "image" = true
          · rw [if_pos h3] at h
            cases hrec : dialectABlocks rest with
            | ok parts =>
              rw [hrec] at h
              exact Except.noConfusion h
            | error e =>
              rw [hrec] at h
              injection h with h2
              subst h2
              exact ih hrec
          · rw [if_neg h3] at h
            exact ih h
    · rw [dialectABlocks_cons_nondict b rest (fun d hq => hb ⟨d, hq⟩)] at h
      cases hrec : dialectABlocks rest with
      | ok parts =>
        rw [hrec] at h
        exact Except.noConfusion h
      | error e =>
        rw [hrec] at h
        injection h with h2
        subst h2
        exact ih hrec

/-- Equation of the strict join on a string head. -/
theorem joinStrict_cons_str (s : String) (rest : List PyVal) :
    joinStrict (.str s :: rest) =
      (match rest with
       | [] => .ok s
       | _ :: _ =>
         match joinStrict rest with
         | .ok t => .ok (s ++ " " ++ t)
         | .error e => .error e) := rfl

/-- Equation of the strict join on a non-string head. -/
theorem joinStrict_cons_nonstr (v : PyVal) (rest : List PyVal) (hv : ∀ s, v ≠ .str s) :
    joinStrict (v :: rest) = .error typeErrorText := by
  cases v with
  | str s => exact absurd rfl (hv s)
  | int n => rfl
  | bool bb => rfl
  | pynone => rfl
  | dict d => rfl
  | list l => rfl

/-- The strict join never raises the missing-id error. -/
theorem joinStrict_ne_missing (parts : List PyVal) :
    joinStrict parts ≠ Except.error missingIdText := by
  induction parts with
  | nil =>
    intro h
    exact Except.noConfusion h
  | cons v rest ih =>
    intro h
    by_cases hv : ∃ s, v = .str s
    · obtain ⟨s, rfl⟩ := hv
      rw [joinStrict_cons_str] at h
      cases rest with
      | nil => exact Except.noConfusion h
      | cons w rest2 =>
        cases hrec : joinStrict (w :: rest2) with
        | ok t =>
          rw [hrec] at h
          exact Except.noConfusion h
        | error e =>
          rw [hrec] at h
          injection h with h2
          subst h2
          exact ih hrec
    · rw [joinStrict_cons_nonstr v rest (fun s hq => hv ⟨s, hq⟩)] at h
      injection h with h2
      exact absurd h2 (by decide)

/-- Equation of the tool branch of the OpenAI message conversion when the
stored id value is present. -/
theorem toOpenaiMessage_tool_eq (m : Message) (hr : m.role = "tool") (v : PyVal)
    (hv : m.toolCallId = some v) :
    toOpenaiMessage m =
      (if pyTruthy v then
         match toolBranchTexts m.content with
         | .ok ss => .ok (.dict [("role", .str "tool"), ("tool_call_id", v),
                                 ("content", .str (String.intercalate " " ss))])
         | .error e => .error e
       else .error missingIdText) := by
  unfold toOpenaiMessage
  rw [if_pos hr, hv]

/-- Equation of the tool branch of the Groq message conversion when the
stored id value is present. -/
theorem toGroqMessage_tool_eq (m : Message) (hr : m.role = "tool") (v : PyVal)
    (hv : m.toolCallId = some v) :
    toGroqMessage m =
      (if pyTruthy v then
         match toolBranchTexts m.content with
         | .ok ss =>
           .ok (.dict [("role", .str "tool"), ("tool_call_id", v),
                       ("content", .str (if String.intercalate " " ss ≠ ""
                                         then String.intercalate " " ss else ""))])
         | .error e => .error e
       else .error missingIdText) := by
  unfold toGroqMessage
  rw [if_pos hr, hv]

/-- One good stored message never converts to the missing-id error in the
OpenAI adapter. -/
theorem toOpenaiMessage_ne_missing (m : Message) (hm : goodToolMsg m = true) :
    toOpenaiMessage m ≠ Except.error missingIdText := by
  intro h
  by_cases hr : m.role = "tool"
  · obtain ⟨s, hv, hs⟩ := goodToolMsg_tool m hm hr
    have htruthy : pyTruthy (.str s) = true := by simp [pyTruthy, hs]
    rw [toOpenaiMessage_tool_eq m hr _ hv, if_pos htruthy] at h
    split at h
    · exact Except.noConfusion h
    · rename_i e heq
      injection h with h2
      subst h2
      exact toolBranchTexts_ne_missing m.content heq
  · unfold toOpenaiMessage at h
    rw [if_neg hr] at h
    split at h
    · rename_i e heq
      injection h with h2
      subst h2
      exact dialectABlocks_ne_missing m.content heq
    · split at h
      · rename_i e heq
        injection h with h2
        subst h2
        exact joinStrict_ne_missing _ heq
      · split at h
        · exact Except.noConfusion h
        · exact Except.noConfusion h

/-- One good stored message never converts to the missing-id error in the
Groq adapter. -/
theorem toGroqMessage_ne_missing (m : Message) (hm : goodToolMsg m = true) :
    toGroqMessage m ≠ Except.error missingIdText := by
  intro h
  by_cases hr : m.role = "tool"
  · obtain ⟨s, hv, hs⟩ := goodToolMsg_tool m hm hr
    have htruthy : pyTruthy (.str s) = true := by simp [pyTruthy, hs]
    rw [toGroqMessage_tool_eq m hr _ hv, if_pos htruthy] at h
    split at h
    · exact Except.noConfusion h
    · rename_i e heq
      injection h with h2
      subst h2
      exact toolBranchTexts_ne_missing m.content heq
  · unfold toGroqMessage at h
    rw [if_neg hr] at h
    split at h
    · rename_i e heq
      injection h with h2
      subst h2
      exact dialectABlocks_ne_missing m.content heq
    · split at h
      · rename_i e heq
        injection h with h2
        subst h2
        exact joinStrict_ne_missing _ heq
      · split at h
        · exact Except.noConfusion h
        · exact Except.noConfusion h

/-- The OpenAI conversion of a conversation of good messages never raises
the missing-id error. -/
theorem to_openai_messages_ne_missing (msgs : List Message)
    (h : msgs.all goodToolMsg = true) :
    to_openai_messages msgs ≠ Except.error missingIdText := by
  induction msgs with
  | nil =>
    intro hc
    exact Except.noConfusion hc
  | cons m rest ih =>
    intro hc
    rw [List.all_cons, Bool.and_eq_true] at h
    rw [to_openai_messages] at hc
    split at hc
    · rename_i e heq
      injection hc with h2
      subst h2
      exact toOpenaiMessage_ne_missing m h.1 heq
    · split at hc
      · rename_i e heq
        injection hc with h2
        subst h2
        exact ih h.2 heq
      · exact Except.noConfusion hc

/-- The Groq conversion of a conversation of good messages never raises the
missing-id error. -/
theorem to_groq_messages_ne_missing (msgs : List Message)
    (h : msgs.all goodToolMsg = true) :
    to_groq_messages msgs ≠ Except.error missingIdText := by
  induction msgs with
  | nil =>
    intro hc
    exact Except.noConfusion hc
  | cons m rest ih =>
    intro hc
    rw [List.all_cons, Bool.and_eq_true] at h
    rw [to_groq_messages] at hc
    split at hc
    · rename_i e heq
      injection hc with h2
      subst h2
      exact toGroqMessage_ne_missing m h.1 heq
    · split at hc
      · rename_i e heq
        injection hc with h2
        subst h2
        exact ih h.2 heq
      · exact Except.noConfusion hc

/-- C10: over every conversation built through the handler whose tool
appends supply a non-empty `tool_call_id`, the missing-id error branch of
both Dialect A adapters is unreachable, and `append_message` rejects tool
inputs lacking the `tool_call_id` key outright. -/
theorem C10_missing_tool_call_id_unreachable (ops : List MHOp)
    (hgood : ops.all goodToolAppend = true) :
    to_openai_messages (runOps [] ops) ≠ Except.error missingIdText
    ∧ to_groq_messages (runOps [] ops) ≠ Except.error missingIdText
    ∧ (∀ (msgs : List Message) (d : PyDict),
        PyDict.lookup d "tool_call_id" = Option.none →
        appendMessage msgs "tool" (.dict d) = Except.error toolMsgErrorText) := by
  refine ⟨?_, ?_, ?_⟩
  · exact to_openai_messages_ne_missing _ (goodToolMsg_runOps ops hgood)
  · exact to_groq_messages_ne_missing _ (goodToolMsg_runOps ops hgood)
  · intro msgs d hd
    rw [appendMessage_tool_dict, hd]

/-- Witness for C10 at a concrete operation sequence containing one good
tool append. -/
theorem C10_missing_tool_call_id_witness :
    to_openai_messages (runOps []
      [MHOp.setSystem "s", MHOp.userText "hi",
       MHOp.append "tool" (.dict [("tool_call_id", PyVal.str "abc"), ("content", PyVal.str "5")])])
      ≠ Except.error missingIdText :=
  (C10_missing_tool_call_id_unreachable
    [MHOp.setSystem "s", MHOp.userText "hi",
     MHOp.append "tool" (.dict [("tool_call_id", PyVal.str "abc"), ("content", PyVal.str "5")])]
    (by decide)).1

/-- Witness for C1 at a concrete two-turn script with distinct ids. -/
theorem C1_at_most_one_tool_reply_witness :
    countToolMsgs
      (finalMessages (processInteraction []
        [Except.ok ⟨[CBlock.toolUse ⟨"a", "f", []⟩, CBlock.toolUse ⟨"b", "f", []⟩], "tool_use"⟩,
         Except.ok ⟨[CBlock.text "done"], "stop_sequence"⟩]
        ⟨[], []⟩)) "a" ≤ 1 :=
  C1_at_most_one_tool_reply_amended []
    [Except.ok ⟨[CBlock.toolUse ⟨"a", "f", []⟩, CBlock.toolUse ⟨"b", "f", []⟩], "tool_use"⟩,
     Except.ok ⟨[CBlock.text "done"], "stop_sequence"⟩]
    ⟨[], []⟩
    (by
      intro resp h
      simp only [List.mem_cons, List.not_mem_nil, or_false] at h
      rcases h with h | h
      · cases h
        decide
      · cases h
        decide)
    (fun _ => Nat.zero_le 1)
    (fun _ h => absurd h (Nat.not_succ_le_zero 0))
    "a"

end AgentNexus
